import Mathlib

/-!
Verification development for sparkdl/graph/graph_builder.py.

The file shallowly embeds the two classes of the source file —
IsolatedSession (graph import/export on an isolated graph) and
GraphFunction (portable graph unit with dump / from_file / from_keras /
from_list) — and proves the spec claims about them.

Modelling conventions:
* A live graph is the list of its nodes; a node carries its fully
  qualified name, a dtype code, a shape and a placeholder flag.  Edges
  are not needed by any claim.
* Python exceptions become Except values; the assert statements and the
  NotImplementedError of the source each get a constructor of GBError.
* Side effects that the claims talk about (opening an IsolatedSession,
  calling tf.import_graph_def, creating/removing the temp directory of
  from_keras) are recorded explicitly (an event trace, outcome flags).
* Collaborators that are not part of the repository (the TensorFlow
  engine, the protobuf codec, the tfx helpers living outside src/) are
  modelled from the spec; each such definition says so in its doc
  comment.
-/

namespace Sparkdl

/-- Node of a computation graph: fully qualified name, element dtype code,
shape, and whether the node is of placeholder kind. -/
structure GNode where
  name : String
  dtype : Nat
  shape : List Nat
  isPh : Bool
deriving DecidableEq, Repr

/-- Static graph-definition snapshot (tf.GraphDef): the list of its nodes. -/
structure GraphDef where
  nodes : List GNode
deriving DecidableEq, Repr

/-- Live graph of an IsolatedSession, as the list of nodes created so far. -/
abbrev Graph := List GNode

/-- Graph element handle (tf.Tensor): op name plus dtype, shape, kind. -/
structure Tensor where
  name : String
  dtype : Nat
  shape : List Nat
  isPh : Bool
deriving DecidableEq, Repr

/-- GraphFunction data (graph_builder.py, lines 133-141). -/
structure GraphFunction where
  graph_def : GraphDef
  input_names : List String
  output_names : List String
deriving DecidableEq, Repr

/-- Errors raised by the builder code: the two asserts and the
NotImplementedError of from_list, the input-map assert of
import_graph_function, and name-resolution failures from the engine. -/
inductive GBError
  | assertEmptyFns
  | arityMismatch (scopeIn scopeOut : Option String)
  | notImplemented
  | inputMapKey
  | resolution (name : String)
deriving DecidableEq, Repr

/-- Observable side effects recorded while running the builder code. -/
inductive Event
  | sessionOpened
  | importCalled
deriving DecidableEq, Repr

/-- Python str.strip modelled on the character list: drop leading and
trailing whitespace. -/
def pyStrip (s : String) : String :=
  ⟨((s.data.dropWhile Char.isWhitespace).reverse.dropWhile Char.isWhitespace).reverse⟩

/-- Python str.endswith modelled on the character list. -/
def pyEndsWith (s suf : String) : Bool :=
  suf.data.isSuffixOf s.data

/-- Modelled from the spec: the engine's graph-definition import
(tf.import_graph_def).  Every node name is prefixed with the scope name
followed by a separator, unless the scope is absent or empty, in which
case names are imported verbatim. -/
def importGraphDef (g : Graph) (gdef : GraphDef) (scope : Option String) : Graph :=
  let pfx := match scope with
    | none => ""
    | some s => if s.length == 0 then "" else s ++ "/"
  g ++ gdef.nodes.map (fun n => ⟨pfx ++ n.name, n.dtype, n.shape, n.isPh⟩)

/-- Modelled from the spec: resolve a symbolic name to a concrete graph
element (tfx.get_tensor, which lives outside src/); fails with a
resolution error if no node bears the name. -/
def getTensor (g : Graph) (name : String) : Except GBError Tensor :=
  match g.find? (fun n => n.name == name) with
  | some n => .ok ⟨n.name, n.dtype, n.shape, n.isPh⟩
  | none => .error (.resolution name)

/-- Modelled from the spec: op name of a graph element (tfx.op_name). -/
def op_name (_g : Graph) (t : Tensor) : String := t.name

/-- Modelled from the spec: tf.placeholder — create a placeholder node. -/
def tfPlaceholder (g : Graph) (dtype : Nat) (shape : List Nat) (name : String) :
    Graph × Tensor :=
  (g ++ [⟨name, dtype, shape, true⟩], ⟨name, dtype, shape, true⟩)

/-- Modelled from the spec: tf.identity — pass-through node with a given
name. -/
def tfIdentity (g : Graph) (t : Tensor) (name : String) : Graph × Tensor :=
  (g ++ [⟨name, t.dtype, t.shape, false⟩], ⟨name, t.dtype, t.shape, false⟩)

/-- Modelled from the spec: tfx.validated_input — the element must resolve
in the graph and be of placeholder kind. -/
def validatedInput (g : Graph) (t : Tensor) : Except GBError String :=
  if g.any (fun n => n.name == t.name && n.isPh) then .ok t.name
  else .error (.resolution t.name)

/-- Modelled from the spec: tfx.validated_output — the element must
resolve in the graph. -/
def validatedOutput (g : Graph) (t : Tensor) : Except GBError String :=
  if g.any (fun n => n.name == t.name) then .ok t.name
  else .error (.resolution t.name)

/-- Modelled from the spec: tfx.strip_and_freeze_until — snapshot the
current graph.  Pruning to the subgraph reachable from the outputs is not
observable here because edges are not modelled, so the snapshot keeps all
nodes. -/
def stripAndFreezeUntil (_outputs : List Tensor) (g : Graph) : GraphDef := ⟨g⟩

/-- Map a fallible function over a list, stopping at the first error (the
evaluation order of a Python list comprehension whose calls may raise). -/
def mapE {α β : Type} (f : α → Except GBError β) : List α → Except GBError (List β)
  | [] => .ok []
  | a :: l =>
    match f a with
    | .error e => .error e
    | .ok b =>
      match mapE f l with
      | .error e => .error e
      | .ok bs => .ok (b :: bs)

/-- Name decoration of import_graph_function (lines 105-111): when the
stripped scope is present and non-empty, qualify every declared name with
it; otherwise keep the declared names. -/
def decorateNames (stripped : Option String) (ns : List String) : List String :=
  match stripped with
  | none => ns
  | some s => if 0 < s.length then ns.map (fun n => s ++ "/" ++ n) else ns

/-- Post-validation body of IsolatedSession.import_graph_function
(lines 103-121): strip the scope name, decorate the declared input/output
names when the stripped scope is non-empty, import the graph definition,
then resolve feeds and fetches by name. -/
def importGFRun (g : Graph) (gfn : GraphFunction) (name : Option String) :
    List Event × Except GBError (Graph × List Tensor × List Tensor) :=
  let stripped := name.map pyStrip
  let input_names := decorateNames stripped gfn.input_names
  let output_names := decorateNames stripped gfn.output_names
  let g2 := importGraphDef g gfn.graph_def stripped
  ([Event.importCalled],
    match mapE (getTensor g2) input_names with
    | .error e => .error e
    | .ok feeds =>
      match mapE (getTensor g2) output_names with
      | .error e => .error e
      | .ok fetches => .ok (g2, feeds, fetches))

/-- IsolatedSession.import_graph_function (lines 86-121): when an input
map is supplied, every key must be among the declared input names
(line 100) before the import is attempted. -/
def import_graph_function (g : Graph) (gfn : GraphFunction)
    (input_map : Option (List (String × Tensor))) (name : Option String) :
    List Event × Except GBError (Graph × List Tensor × List Tensor) :=
  match input_map with
  | some m =>
    if m.all (fun kv => gfn.input_names.contains kv.1) then importGFRun g gfn name
    else ([], .error .inputMapKey)
  | none => importGFRun g gfn name

/-- IsolatedSession.asGraphFunction (lines 70-84), in its default
strip-and-freeze mode. -/
def asGraphFunction (g : Graph) (inputs outputs : List Tensor) :
    Except GBError GraphFunction :=
  let gdef := stripAndFreezeUntil outputs g
  match mapE (validatedInput g) inputs with
  | .error e => .error e
  | .ok ins =>
    match mapE (validatedOutput g) outputs with
    | .error e => .error e
    | .ok outs => .ok ⟨gdef, ins, outs⟩

/-- Precondition loop of GraphFunction.from_list (lines 212-216):
iterate the adjacent pairs zip(functions[:-1], functions[1:]); first
assert equal arities, then require the right unit of the pair to declare
exactly one input. -/
def checkChain : List (Option String × GraphFunction) → Option GBError
  | p :: q :: rest =>
    if p.2.output_names.length ≠ q.2.input_names.length then
      some (.arityMismatch p.1 q.1)
    else if q.2.input_names.length ≠ 1 then some .notImplemented
    else checkChain (q :: rest)
  | _ => none

/-- Placeholder re-creation loop of from_list, phase 2 (lines 229-230). -/
def makePlaceholders (g : Graph) : List (Nat × List Nat × String) → Graph × List Tensor
  | [] => (g, [])
  | (d, s, n) :: rest =>
    let p := tfPlaceholder g d s n
    let r := makePlaceholders p.1 rest
    (r.1, p.2 :: r.2)

/-- Identity re-exposure loop of from_list (lines 246-248). -/
def makeIdentities (g : Graph) : List (Tensor × String) → Graph × List Tensor
  | [] => (g, [])
  | (t, n) :: rest =>
    let p := tfIdentity g t n
    let r := makeIdentities p.1 rest
    (r.1, p.2 :: r.2)

/-- Main loop of from_list, phase 2 (lines 233-242): import each unit
under its scope — synthesizing the positional default when the scope is
absent or blank — rewiring its inputs to the previous outputs. -/
def mergeLoop (g : Graph) (prev : List Tensor) (idx : Nat) :
    List (Option String × GraphFunction) →
    List Event × Except GBError (Graph × List Tensor)
  | [] => ([], .ok (g, prev))
  | p :: rest =>
    let scopeS := match p.1 with
      | none => "GFN-BLK-" ++ toString idx
      | some s => if (pyStrip s).length == 0 then "GFN-BLK-" ++ toString idx else s
    let r := import_graph_function g p.2 (some (p.2.input_names.zip prev)) (some scopeS)
    match r.2 with
    | .error e => (r.1, .error e)
    | .ok (g2, _, fetches) =>
      let r2 := mergeLoop g2 fetches (idx + 1) rest
      (r.1 ++ r2.1, r2.2)

/-- Result of GraphFunction.from_list.  Python is dynamically typed and
the single-element branch (line 211) returns the (scope, GraphFunction)
tuple functions[0], while the general branch returns a GraphFunction. -/
inductive MergeResult
  | pair (scope : Option String) (g : GraphFunction)
  | fn (g : GraphFunction)
deriving DecidableEq, Repr

/-- GraphFunction.from_list (lines 201-252), together with the trace of
execution contexts opened and graph imports performed. -/
def from_list (functions : List (Option String × GraphFunction)) :
    List Event × Except GBError MergeResult :=
  match functions with
  | [] => ([], .error .assertEmptyFns)
  | [f] => ([], .ok (.pair f.1 f.2))
  | f0 :: f1 :: rest =>
    match checkChain (f0 :: f1 :: rest) with
    | some e => ([], .error e)
    | none =>
      let r1 := import_graph_function [] f0.2 none (some "")
      match r1.2 with
      | .error e => (Event.sessionOpened :: r1.1, .error e)
      | .ok (gA, feeds, _) =>
        let first_input_info := feeds.map (fun t => (t.dtype, t.shape, op_name gA t))
        let ph := makePlaceholders [] first_input_info
        let r2 := mergeLoop ph.1 ph.2 0 (f0 :: f1 :: rest)
        let evs := Event.sessionOpened :: r1.1 ++ Event.sessionOpened :: r2.1
        match r2.2 with
        | .error e => (evs, .error e)
        | .ok (gB, prev) =>
          let last_output_names := (rest.getLastD f1).2.output_names
          let ids := makeIdentities gB (prev.zip last_output_names)
          match asGraphFunction ids.1 ph.2 ids.2 with
          | .error e => (evs, .error e)
          | .ok gfn => (evs, .ok (.fn gfn))

/-- Exceptions escaping the external Keras collaborators of from_keras. -/
inductive KError
  | loadFailure
  | captureFailure
deriving DecidableEq, Repr

/-- Opaque handle for a loaded Keras model. -/
structure KModel where
  id : Nat
deriving DecidableEq, Repr

instance {ε α : Type} [DecidableEq ε] [DecidableEq α] : DecidableEq (Except ε α) :=
  fun a b =>
    match a, b with
    | .ok x, .ok y =>
      if h : x = y then isTrue (by rw [h]) else isFalse (fun hh => h (by injection hh))
    | .error x, .error y =>
      if h : x = y then isTrue (by rw [h]) else isFalse (fun hh => h (by injection hh))
    | .ok _, .error _ => isFalse (fun hh => Except.noConfusion hh)
    | .error _, .ok _ => isFalse (fun hh => Except.noConfusion hh)

/-- Outcome record of GraphFunction.from_keras: the returned value or the
exception that escaped, whether a temporary directory was materialized
(mkdtemp, line 179), and whether it was removed (shutil.rmtree,
line 197). -/
structure KerasOutcome where
  result : Except KError GraphFunction
  tempCreated : Bool
  tempRemoved : Bool
deriving DecidableEq, Repr

/-- GraphFunction.from_keras (lines 173-199).  The Keras collaborators
are external, so their outcomes are parameters: loadRes is the outcome of
load_model and capture the outcome of asGraphFunction on the loaded
model.  The rmtree call (lines 196-197) sits after the with-block with no
try/finally, so it runs only when load and capture both return normally;
an exception from either propagates past it. -/
def from_keras (isModel : Bool) (loadRes : Except KError KModel)
    (capture : KModel → Except KError GraphFunction) : KerasOutcome :=
  let is_temp_model := isModel
  match loadRes with
  | .error e => ⟨.error e, is_temp_model, false⟩
  | .ok m =>
    match capture m with
    | .error e => ⟨.error e, is_temp_model, false⟩
    | .ok gfn => ⟨.ok gfn, is_temp_model, is_temp_model⟩

/-- Serialize a string: length-prefixed code points (part of the protobuf
byte encoding, modelled over unbounded naturals). -/
def encodeStr (s : String) : List Nat := s.data.length :: s.data.map Char.toNat

/-- Decode a length-prefixed string from a byte list. -/
def decodeStr : List Nat → Option (String × List Nat)
  | [] => none
  | n :: rest =>
    if n ≤ rest.length then some (⟨(rest.take n).map Char.ofNat⟩, rest.drop n)
    else none

/-- Serialize a list of naturals, length-prefixed. -/
def encodeNatList (l : List Nat) : List Nat := l.length :: l

/-- Decode a length-prefixed list of naturals. -/
def decodeNatList : List Nat → Option (List Nat × List Nat)
  | [] => none
  | n :: rest =>
    if n ≤ rest.length then some (rest.take n, rest.drop n) else none

/-- Serialize one graph node. -/
def encodeNode (n : GNode) : List Nat :=
  encodeStr n.name ++ n.dtype :: (if n.isPh then 1 else 0) :: encodeNatList n.shape

/-- Decode one graph node. -/
def decodeNode (bs : List Nat) : Option (GNode × List Nat) :=
  match decodeStr bs with
  | none => none
  | some (name, r1) =>
    match r1 with
    | [] => none
    | d :: r2 =>
      match r2 with
      | [] => none
      | ph :: r3 =>
        match decodeNatList r3 with
        | none => none
        | some (shape, r4) => some (⟨name, d, shape, ph == 1⟩, r4)

/-- Serialize a node list. -/
def encodeNodes : List GNode → List Nat
  | [] => []
  | n :: rest => encodeNode n ++ encodeNodes rest

/-- Decode a given number of nodes. -/
def decodeNodes : Nat → List Nat → Option (List GNode × List Nat)
  | 0, bs => some ([], bs)
  | k + 1, bs =>
    match decodeNode bs with
    | none => none
    | some (n, r) =>
      match decodeNodes k r with
      | none => none
      | some (ns, r2) => some (n :: ns, r2)

/-- Modelled from the spec: protobuf GraphDef.SerializeToString. -/
def GraphDef.SerializeToString (g : GraphDef) : List Nat :=
  g.nodes.length :: encodeNodes g.nodes

/-- Modelled from the spec: protobuf tf.GraphDef.FromString; fails on
bytes that do not decode to a whole graph definition. -/
def GraphDef.FromString (bs : List Nat) : Option GraphDef :=
  match bs with
  | [] => none
  | k :: rest =>
    match decodeNodes k rest with
    | some (ns, []) => some ⟨ns⟩
    | _ => none

/-- Value stored in one field of the persisted joblib container. -/
inductive FileValue
  | bytes (b : List Nat)
  | strs (l : List String)
deriving DecidableEq, Repr

/-- Persisted container written by dump: a keyed record, as an
association list. -/
abbrev Container := List (String × FileValue)

/-- Failures of GraphFunction.from_file: the three-field assert
(line 166), a field of the wrong dynamic type, and undecodable
graph-definition bytes. -/
inductive LoadError
  | missingField
  | fieldType
  | malformedBytes
deriving DecidableEq, Repr

/-- Path normalization of GraphFunction.dump (lines 153-154): append the
.jl suffix when the path does not already end with jl. -/
def dumpNormPath (fpath : String) : String :=
  if pyEndsWith fpath "jl" then fpath else fpath ++ ".jl"

/-- GraphFunction.dump (lines 143-155): the normalized path and the
persisted container written there. -/
def dump (g : GraphFunction) (fpath : String) : String × Container :=
  (dumpNormPath fpath,
   [("graph_def_bytes", .bytes g.graph_def.SerializeToString),
    ("inputs", .strs g.input_names),
    ("outputs", .strs g.output_names)])

/-- Keys present in a persisted container. -/
def containerKeys (c : Container) : List String := c.map (fun kv => kv.1)

/-- Dictionary lookup in a persisted container. -/
def lookupField (c : Container) (k : String) : Option FileValue :=
  match c.find? (fun kv => kv.1 == k) with
  | some kv => some kv.2
  | none => none

/-- GraphFunction.from_file (lines 157-170): require the three fields,
decode the graph-definition bytes, rebuild the GraphFunction.  The
dynamic values of the persisted dict are typed here; a field holding a
value of the wrong shape is the fieldType error. -/
def from_file (c : Container) : Except LoadError GraphFunction :=
  if ["inputs", "graph_def_bytes", "outputs"].all
      (fun k => (containerKeys c).contains k) then
    match lookupField c "graph_def_bytes", lookupField c "inputs",
        lookupField c "outputs" with
    | some (.bytes b), some (.strs ins), some (.strs outs) =>
      match GraphDef.FromString b with
      | some gdef => .ok ⟨gdef, ins, outs⟩
      | none => .error .malformedBytes
    | _, _, _ => .error .fieldType
  else .error .missingField

/-- Whether an Except value is a success. -/
def exceptIsOk {ε α : Type} : Except ε α → Bool
  | .ok _ => true
  | .error _ => false

/-- Default pair used when a merge sequence is indexed positionally. -/
def dPair : Option String × GraphFunction := (none, ⟨⟨[]⟩, [], []⟩)

/-! ### Codec lemmas: the persisted byte encoding is a bijection -/

theorem map_ofNat_toNat (l : List Char) : (l.map Char.toNat).map Char.ofNat = l := by
  rw [List.map_map]
  exact List.map_id'' Char.ofNat_toNat l

theorem decodeStr_encodeStr (s : String) (r : List Nat) :
    decodeStr (encodeStr s ++ r) = some (s, r) := by
  have hlen : (s.data.map Char.toNat).length = s.data.length := List.length_map _ _
  simp only [encodeStr, List.cons_append, decodeStr]
  rw [if_pos (by rw [List.length_append, hlen]; omega)]
  rw [List.take_left' hlen, List.drop_left' hlen, map_ofNat_toNat]

theorem decodeNatList_encodeNatList (l r : List Nat) :
    decodeNatList (encodeNatList l ++ r) = some (l, r) := by
  simp only [encodeNatList, List.cons_append, decodeNatList]
  rw [if_pos (by rw [List.length_append]; omega)]
  rw [List.take_left, List.drop_left]

theorem decodeNode_encodeNode (n : GNode) (r : List Nat) :
    decodeNode (encodeNode n ++ r) = some (n, r) := by
  obtain ⟨name, d, shape, ph⟩ := n
  have h1 : encodeNode ⟨name, d, shape, ph⟩ ++ r =
      encodeStr name ++ (d :: (if ph then 1 else 0) :: (encodeNatList shape ++ r)) := by
    simp [encodeNode]
  rw [h1]
  simp only [decodeNode, decodeStr_encodeStr, decodeNatList_encodeNatList]
  cases ph <;> rfl

theorem decodeNodes_encodeNodes (l : List GNode) (r : List Nat) :
    decodeNodes l.length (encodeNodes l ++ r) = some (l, r) := by
  induction l generalizing r with
  | nil => simp [encodeNodes, decodeNodes]
  | cons n rest ih =>
    simp only [encodeNodes, List.length_cons, List.append_assoc]
    simp only [decodeNodes, decodeNode_encodeNode, ih]

theorem FromString_SerializeToString (g : GraphDef) :
    GraphDef.FromString g.SerializeToString = some g := by
  obtain ⟨nodes⟩ := g
  have h := decodeNodes_encodeNodes nodes []
  rw [List.append_nil] at h
  simp [GraphDef.SerializeToString, GraphDef.FromString, h]

/-! ### Serialization claims -/

theorem from_file_canonical (b : List Nat) (ins outs : List String) (gdef : GraphDef)
    (h : GraphDef.FromString b = some gdef) :
    from_file [("graph_def_bytes", .bytes b), ("inputs", .strs ins),
      ("outputs", .strs outs)] = .ok ⟨gdef, ins, outs⟩ := by
  unfold from_file
  rw [if_pos (by simp only [containerKeys, List.map]; decide)]
  simp [lookupField, List.find?, h]

/-- C5: deserializing the container written by serialize(g, p) yields the
Graph Function g itself — equal graph-definition bytes, input_names and
output_names — for every g and every path p. -/
theorem c5_round_trip (g : GraphFunction) (p : String) :
    from_file (dump g p).2 = .ok g := by
  obtain ⟨gdef, ins, outs⟩ := g
  exact from_file_canonical _ ins outs gdef (FromString_SerializeToString gdef)

/-- C8: from_file fails with the malformed-archive (missing-field) error
when any of the three persisted fields is absent; when all three are
present it decodes the graph-definition bytes and carries over exactly the
stored input and output names. -/
theorem c8_from_file_fields :
    (∀ c : Container,
      ("graph_def_bytes" ∉ containerKeys c ∨ "inputs" ∉ containerKeys c ∨
        "outputs" ∉ containerKeys c) →
      from_file c = .error .missingField) ∧
    (∀ (b : List Nat) (ins outs : List String) (gdef : GraphDef),
      GraphDef.FromString b = some gdef →
      from_file [("graph_def_bytes", .bytes b), ("inputs", .strs ins),
        ("outputs", .strs outs)] = .ok ⟨gdef, ins, outs⟩) := by
  constructor
  · intro c h
    unfold from_file
    rw [if_neg]
    intro hall
    rw [List.all_eq_true] at hall
    rcases h with h | h | h
    · exact h (by simpa using hall "graph_def_bytes" (by simp))
    · exact h (by simpa using hall "inputs" (by simp))
    · exact h (by simpa using hall "outputs" (by simp))
  · exact from_file_canonical

/-- C8 witness: an empty container is rejected as missing fields; a
concrete complete container is decoded to the stored fields. -/
theorem c8_witness :
    from_file [] = .error .missingField ∧
    from_file [("graph_def_bytes", .bytes (GraphDef.SerializeToString ⟨[]⟩)),
      ("inputs", .strs ["i"]), ("outputs", .strs ["o"])] = .ok ⟨⟨[]⟩, ["i"], ["o"]⟩ :=
  ⟨c8_from_file_fields.1 [] (Or.inl (by decide)),
   c8_from_file_fields.2 _ ["i"] ["o"] ⟨[]⟩ (by decide)⟩

theorem pyEndsWith_append_jl (p : String) : pyEndsWith (p ++ ".jl") "jl" = true := by
  unfold pyEndsWith
  rw [String.data_append, List.isSuffixOf_iff_suffix]
  exact ⟨p.data ++ ['.'], by simp⟩

/-- C9: the path normalization of dump is a deterministic function of the
path and is idempotent. -/
theorem c9_norm_path :
    (∀ p q : String, p = q → dumpNormPath p = dumpNormPath q) ∧
    (∀ p : String, dumpNormPath (dumpNormPath p) = dumpNormPath p) := by
  refine ⟨fun p q h => by rw [h], fun p => ?_⟩
  by_cases h : pyEndsWith p "jl"
  · simp [dumpNormPath, h]
  · simp [dumpNormPath, h, pyEndsWith_append_jl]

/-- C9 witness: normalization evaluated at a concrete path. -/
theorem c9_witness :
    dumpNormPath "m" = dumpNormPath "m" ∧
    dumpNormPath (dumpNormPath "m") = dumpNormPath "m" :=
  ⟨c9_norm_path.1 "m" "m" rfl, c9_norm_path.2 "m"⟩

/-! ### Single-element merge (C1) and from_keras cleanup (C2) -/

/-- Concrete one-placeholder graph function. -/
def gC1 : GraphFunction := ⟨⟨[⟨"x", 0, [], true⟩]⟩, ["x"], ["x"]⟩

/-- C1: evaluating from_list on a single-element sequence shows the code
returning the (label, unit) tuple functions[0] — not the Graph Function
itself, contrary to the claim and to the docstring of from_list, whose
other branch returns a GraphFunction. -/
theorem c1_singleton_pair :
    from_list [(some "lbl", gC1)] = ([], .ok (.pair (some "lbl") gC1)) := by decide

/-- Concrete empty graph function for the from_keras claims. -/
def gC2 : GraphFunction := ⟨⟨[]⟩, [], []⟩

/-- C2 counterexample: an in-memory model whose load step raises leaves
the temporary directory created but never removed, refuting removal on
every exit path. -/
theorem c2_counterexample :
    (from_keras true (.error .loadFailure) (fun _ => .ok gC2)).tempCreated = true ∧
    (from_keras true (.error .loadFailure) (fun _ => .ok gC2)).tempRemoved = false := by
  decide

/-- C2 amended: for every in-memory from_keras call the temporary
directory is created, and it is removed exactly when the call returns
successfully; when load or capture raises it is leaked. -/
theorem c2_temp_cleanup :
    ∀ (l : Except KError KModel) (c : KModel → Except KError GraphFunction),
    (from_keras true l c).tempCreated = true ∧
    (from_keras true l c).tempRemoved = exceptIsOk (from_keras true l c).result := by
  intro l c
  cases l with
  | error e => exact ⟨rfl, rfl⟩
  | ok m =>
    cases hc : c m with
    | error e => simp [from_keras, hc, exceptIsOk]
    | ok gfn => simp [from_keras, hc, exceptIsOk]

/-! ### Precondition-loop lemmas (from_list, lines 212-216) -/

theorem checkChain_none_iff :
    ∀ l : List (Option String × GraphFunction),
    checkChain l = none ↔
      ∀ i, i + 1 < l.length →
        (l.getD i dPair).2.output_names.length =
          (l.getD (i + 1) dPair).2.input_names.length ∧
        (l.getD (i + 1) dPair).2.input_names.length = 1
  | [] => by
    refine iff_of_true rfl ?_
    intro i hi
    simp at hi
  | [x] => by
    refine iff_of_true rfl ?_
    intro i hi
    simp at hi
  | x :: y :: rest => by
    have ih := checkChain_none_iff (y :: rest)
    by_cases h1 : x.2.output_names.length ≠ y.2.input_names.length
    · refine iff_of_false (by simp [checkChain, h1]) (fun h => ?_)
      have h0 := (h 0 (by simp)).1
      simp only [List.getD_cons_zero, List.getD_cons_succ] at h0
      exact h1 h0
    · rw [not_ne_iff] at h1
      by_cases h2 : y.2.input_names.length ≠ 1
      · refine iff_of_false (by simp [checkChain, h1, h2]) (fun h => ?_)
        have h0 := (h 0 (by simp)).2
        simp only [List.getD_cons_zero, List.getD_cons_succ] at h0
        exact h2 h0
      · rw [not_ne_iff] at h2
        have hc : checkChain (x :: y :: rest) = checkChain (y :: rest) := by
          simp [checkChain, h1, h2]
        rw [hc, ih]
        constructor
        · intro h i hi
          cases i with
          | zero =>
            simp only [List.getD_cons_zero, List.getD_cons_succ]
            exact ⟨h1, h2⟩
          | succ j =>
            have hj : j + 1 < (y :: rest).length := by
              simp only [List.length_cons] at hi ⊢
              omega
            have := h j hj
            simpa only [List.getD_cons_succ] using this
        · intro h i hi
          have hj : i + 1 + 1 < (x :: y :: rest).length := by
            simp only [List.length_cons] at hi ⊢
            omega
          have := h (i + 1) hj
          simpa only [List.getD_cons_succ] using this

theorem checkChain_some_shape :
    ∀ (l : List (Option String × GraphFunction)) (e : GBError),
    checkChain l = some e →
    (∃ a b, e = GBError.arityMismatch a b) ∨ e = GBError.notImplemented
  | [], e => by simp [checkChain]
  | [x], e => by simp [checkChain]
  | x :: y :: rest, e => by
    intro h
    rw [checkChain] at h
    split at h
    · exact Or.inl ⟨x.1, y.1, (Option.some.inj h).symm⟩
    · split at h
      · exact Or.inr (Option.some.inj h).symm
      · exact checkChain_some_shape (y :: rest) e h

theorem checkChain_arity_of_mismatch :
    ∀ (l : List (Option String × GraphFunction)) (a b : Option String),
    checkChain l = some (.arityMismatch a b) →
    ∃ i, i + 1 < l.length ∧
      (l.getD i dPair).2.output_names.length ≠
        (l.getD (i + 1) dPair).2.input_names.length
  | [], a, b => by simp [checkChain]
  | [x], a, b => by simp [checkChain]
  | x :: y :: rest, a, b => by
    intro h
    rw [checkChain] at h
    split at h
    · refine ⟨0, by simp, ?_⟩
      simpa only [List.getD_cons_zero, List.getD_cons_succ] using (by assumption)
    · split at h
      · exact absurd (Option.some.inj h) (by simp)
      · obtain ⟨i, hi, hne⟩ := checkChain_arity_of_mismatch (y :: rest) a b h
        refine ⟨i + 1, ?_, ?_⟩
        · simp only [List.length_cons] at hi ⊢
          omega
        · simpa only [List.getD_cons_succ] using hne

theorem from_list_of_checkChain (f0 f1 : Option String × GraphFunction)
    (rest : List (Option String × GraphFunction)) (e : GBError)
    (h : checkChain (f0 :: f1 :: rest) = some e) :
    from_list (f0 :: f1 :: rest) = ([], .error e) := by
  rw [from_list, h]

/-! ### Phase lemmas: errors possible after validation, and result shapes -/

theorem mapE_error_shape {α β : Type} (f : α → Except GBError β) :
    ∀ (l : List α) (e : GBError), mapE f l = .error e → ∃ a, f a = .error e
  | [], e => by simp [mapE]
  | a :: l, e => by
    intro h
    rw [mapE] at h
    cases hfa : f a with
    | error e2 =>
      simp only [hfa] at h
      exact ⟨a, by rw [hfa, Except.error.inj h]⟩
    | ok b =>
      simp only [hfa] at h
      cases hml : mapE f l with
      | error e2 =>
        simp only [hml] at h
        exact (Except.error.inj h) ▸ mapE_error_shape f l e2 hml
      | ok bs =>
        simp only [hml] at h
        exact absurd h (by simp)

theorem mapE_ok_length {α β : Type} (f : α → Except GBError β) :
    ∀ (l : List α) (ys : List β), mapE f l = .ok ys → ys.length = l.length
  | [], ys => by
    intro h
    rw [mapE] at h
    rw [← Except.ok.inj h]
    rfl
  | a :: l, ys => by
    intro h
    rw [mapE] at h
    cases hfa : f a with
    | error e => simp only [hfa] at h; exact absurd h (by simp)
    | ok b =>
      simp only [hfa] at h
      cases hml : mapE f l with
      | error e => simp only [hml] at h; exact absurd h (by simp)
      | ok bs =>
        simp only [hml] at h
        rw [← Except.ok.inj h]
        simp [mapE_ok_length f l bs hml]

theorem getTensor_error_shape (g : Graph) (name : String) (e : GBError)
    (h : getTensor g name = .error e) : ∃ m, e = .resolution m := by
  unfold getTensor at h
  split at h
  · exact absurd h (by simp)
  · exact ⟨name, (Except.error.inj h).symm⟩

theorem validatedOutput_ok_name (g : Graph) (t : Tensor) (s : String)
    (h : validatedOutput g t = .ok s) : s = t.name := by
  unfold validatedOutput at h
  split at h
  · exact (Except.ok.inj h).symm
  · exact absurd h (by simp)

theorem validatedOutput_error_shape (g : Graph) (t : Tensor) (e : GBError)
    (h : validatedOutput g t = .error e) : ∃ m, e = .resolution m := by
  unfold validatedOutput at h
  split at h
  · exact absurd h (by simp)
  · exact ⟨t.name, (Except.error.inj h).symm⟩

theorem validatedInput_error_shape (g : Graph) (t : Tensor) (e : GBError)
    (h : validatedInput g t = .error e) : ∃ m, e = .resolution m := by
  unfold validatedInput at h
  split at h
  · exact absurd h (by simp)
  · exact ⟨t.name, (Except.error.inj h).symm⟩

theorem mapE_validatedOutput_ok (g : Graph) :
    ∀ (ts : List Tensor) (outs : List String),
    mapE (validatedOutput g) ts = .ok outs → outs = ts.map Tensor.name
  | [], outs => by
    intro h
    rw [mapE] at h
    rw [← Except.ok.inj h]
    rfl
  | t :: ts, outs => by
    intro h
    rw [mapE] at h
    cases hv : validatedOutput g t with
    | error e => simp only [hv] at h; exact absurd h (by simp)
    | ok s =>
      simp only [hv] at h
      cases hml : mapE (validatedOutput g) ts with
      | error e => simp only [hml] at h; exact absurd h (by simp)
      | ok ss =>
        simp only [hml] at h
        rw [← Except.ok.inj h]
        simp [validatedOutput_ok_name g t s hv, mapE_validatedOutput_ok g ts ss hml]

theorem decorateNames_length (stripped : Option String) (ns : List String) :
    (decorateNames stripped ns).length = ns.length := by
  cases stripped with
  | none => rfl
  | some s =>
    by_cases h : 0 < s.length
    · simp [decorateNames, h]
    · simp [decorateNames, h]

theorem importGFRun_events (g : Graph) (gfn : GraphFunction) (nm : Option String) :
    (importGFRun g gfn nm).1 = [Event.importCalled] := rfl

theorem importGFRun_error_shape (g : Graph) (gfn : GraphFunction) (nm : Option String)
    (e : GBError) (h : (importGFRun g gfn nm).2 = .error e) :
    ∃ m, e = .resolution m := by
  simp only [importGFRun] at h
  split at h
  · rename_i e1 herr
    obtain ⟨a, ha⟩ := mapE_error_shape _ _ e1 herr
    obtain ⟨m, hm⟩ := getTensor_error_shape _ a e1 ha
    exact ⟨m, (Except.error.inj h) ▸ hm⟩
  · split at h
    · rename_i e1 herr
      obtain ⟨a, ha⟩ := mapE_error_shape _ _ e1 herr
      obtain ⟨m, hm⟩ := getTensor_error_shape _ a e1 ha
      exact ⟨m, (Except.error.inj h) ▸ hm⟩
    · exact absurd h (by simp)

theorem importGFRun_ok_lengths (g : Graph) (gfn : GraphFunction) (nm : Option String)
    (g2 : Graph) (feeds fetches : List Tensor)
    (h : (importGFRun g gfn nm).2 = .ok (g2, feeds, fetches)) :
    feeds.length = gfn.input_names.length ∧
    fetches.length = gfn.output_names.length := by
  simp only [importGFRun] at h
  split at h
  · exact absurd h (by simp)
  · rename_i feeds2 hfeeds
    split at h
    · exact absurd h (by simp)
    · rename_i fetches2 hfetches
      have hinj := Except.ok.inj h
      simp only [Prod.mk.injEq] at hinj
      obtain ⟨-, h2, h3⟩ := hinj
      constructor
      · rw [← h2, mapE_ok_length _ _ feeds2 hfeeds, decorateNames_length]
      · rw [← h3, mapE_ok_length _ _ fetches2 hfetches, decorateNames_length]

theorem import_graph_function_error_shape (g : Graph) (gfn : GraphFunction)
    (im : Option (List (String × Tensor))) (nm : Option String) (e : GBError)
    (h : (import_graph_function g gfn im nm).2 = .error e) :
    e = .inputMapKey ∨ ∃ m, e = .resolution m := by
  cases im with
  | none =>
    rw [import_graph_function] at h
    exact Or.inr (importGFRun_error_shape g gfn nm e h)
  | some m =>
    rw [import_graph_function] at h
    split at h
    · exact Or.inr (importGFRun_error_shape g gfn nm e h)
    · exact Or.inl (Except.error.inj h).symm

theorem import_ok_lengths (g : Graph) (gfn : GraphFunction)
    (im : Option (List (String × Tensor))) (nm : Option String)
    (g2 : Graph) (feeds fetches : List Tensor)
    (h : (import_graph_function g gfn im nm).2 = .ok (g2, feeds, fetches)) :
    feeds.length = gfn.input_names.length ∧
    fetches.length = gfn.output_names.length := by
  cases im with
  | none =>
    rw [import_graph_function] at h
    exact importGFRun_ok_lengths g gfn nm g2 feeds fetches h
  | some m =>
    rw [import_graph_function] at h
    split at h
    · exact importGFRun_ok_lengths g gfn nm g2 feeds fetches h
    · exact absurd h (by simp)

theorem asGraphFunction_ok_outputs (g : Graph) (ins outs : List Tensor)
    (gfn : GraphFunction) (h : asGraphFunction g ins outs = .ok gfn) :
    gfn.output_names = outs.map Tensor.name := by
  simp only [asGraphFunction] at h
  split at h
  · exact absurd h (by simp)
  · rename_i ins2 hins
    split at h
    · exact absurd h (by simp)
    · rename_i outs2 houts
      rw [← Except.ok.inj h]
      exact mapE_validatedOutput_ok g outs outs2 houts

theorem asGraphFunction_error_shape (g : Graph) (ins outs : List Tensor) (e : GBError)
    (h : asGraphFunction g ins outs = .error e) : ∃ m, e = .resolution m := by
  simp only [asGraphFunction] at h
  split at h
  · rename_i e1 herr
    obtain ⟨t, ht⟩ := mapE_error_shape _ ins e1 herr
    obtain ⟨m, hm⟩ := validatedInput_error_shape g t e1 ht
    exact ⟨m, (Except.error.inj h) ▸ hm⟩
  · split at h
    · rename_i e1 herr
      obtain ⟨t, ht⟩ := mapE_error_shape _ outs e1 herr
      obtain ⟨m, hm⟩ := validatedOutput_error_shape g t e1 ht
      exact ⟨m, (Except.error.inj h) ▸ hm⟩
    · exact absurd h (by simp)

theorem makeIdentities_names :
    ∀ (l : List (Tensor × String)) (g : Graph),
    (makeIdentities g l).2.map Tensor.name = l.map Prod.snd
  | [], g => rfl
  | p :: rest, g => by
    simp [makeIdentities, tfIdentity, makeIdentities_names rest]

theorem mergeLoop_error_shape :
    ∀ (l : List (Option String × GraphFunction)) (g : Graph) (prev : List Tensor)
      (idx : Nat) (e : GBError),
    (mergeLoop g prev idx l).2 = .error e →
    e = .inputMapKey ∨ ∃ m, e = .resolution m
  | [], g, prev, idx, e => by
    intro h
    rw [mergeLoop] at h
    exact absurd h (by simp)
  | p :: rest, g, prev, idx, e => by
    intro h
    simp only [mergeLoop] at h
    split at h
    · rename_i e1 heq
      simp only at h
      exact (Except.error.inj h) ▸ import_graph_function_error_shape _ _ _ _ e1 heq
    · rename_i g2 t fetches heq
      simp only at h
      exact mergeLoop_error_shape rest g2 fetches (idx + 1) e h

theorem mergeLoop_concat_length :
    ∀ (L : List (Option String × GraphFunction)) (u : Option String × GraphFunction)
      (g : Graph) (prev : List Tensor) (idx : Nat) (g2 : Graph) (prev2 : List Tensor),
    (mergeLoop g prev idx (L ++ [u])).2 = .ok (g2, prev2) →
    prev2.length = u.2.output_names.length
  | [], u, g, prev, idx, g2, prev2 => by
    intro h
    simp only [List.nil_append, mergeLoop] at h
    split at h
    · simp at h
    · rename_i g3 t fetches heq
      simp at h
      rw [← h.2]
      exact (import_ok_lengths _ _ _ _ g3 t fetches heq).2
  | p :: L, u, g, prev, idx, g2, prev2 => by
    intro h
    simp only [List.cons_append, mergeLoop] at h
    split at h
    · simp at h
    · rename_i g3 t fetches heq
      simp only at h
      exact mergeLoop_concat_length L u g3 fetches (idx + 1) g2 prev2 h

theorem from_list_notImpl (fs : List (Option String × GraphFunction))
    (h : (from_list fs).2 = .error .notImplemented) :
    checkChain fs = some .notImplemented := by
  cases fs with
  | nil => simp [from_list] at h
  | cons f0 fs1 =>
    cases fs1 with
    | nil => simp [from_list] at h
    | cons f1 rest =>
      simp only [from_list] at h
      split at h
      · rename_i e heq
        simp only at h
        rw [heq]
        rw [Except.error.inj h]
      · rename_i heq0
        split at h
        · rename_i e heq1
          have he : e = GBError.notImplemented := by simpa using h
          rcases import_graph_function_error_shape _ _ _ _ e heq1 with h' | ⟨mm, h'⟩ <;>
            simp [he] at h'
        · rename_i gA feeds t heq1
          split at h
          · rename_i e heq2
            have he : e = GBError.notImplemented := by simpa using h
            rcases mergeLoop_error_shape _ _ _ _ e heq2 with h' | ⟨mm, h'⟩ <;>
              simp [he] at h'
          · rename_i gB prev heq2
            split at h
            · rename_i e heq3
              have he : e = GBError.notImplemented := by simpa using h
              obtain ⟨mm, h'⟩ := asGraphFunction_error_shape _ _ _ e heq3
              simp [he] at h'
            · rename_i gfn heq3
              simp at h

/-- Two-output first unit of the C3 example. -/
def gC3a : GraphFunction := ⟨⟨[]⟩, ["x"], ["u", "v"]⟩

/-- Two-input last unit of the C3 example; its arity matches gC3a. -/
def gC3b : GraphFunction := ⟨⟨[]⟩, ["u", "v"], ["w"]⟩

/-- First unit of the C4 witness, with two outputs. -/
def gC4a : GraphFunction := ⟨⟨[]⟩, ["x"], ["u", "v"]⟩

/-- Second unit of the C4 witness, with one input: an arity mismatch. -/
def gC4b : GraphFunction := ⟨⟨[]⟩, ["u"], ["w"]⟩

/-- C3 counterexample: two units whose adjacent arities match and whose
only non-terminal unit declares exactly one input; the claim says this
sequence passes the precondition, but from_list raises the
unsupported-topology error because the loop checks the right-hand unit of
each adjacent pair — every unit except the first, including the last. -/
theorem c3_counterexample :
    gC3a.input_names.length = 1 ∧
    gC3a.output_names.length = gC3b.input_names.length ∧
    from_list [(some "s1", gC3a), (some "s2", gC3b)] =
      ([], .error .notImplemented) := by decide

/-- C3 amended: for merge sequences of length at least two whose adjacent
arities all match, from_list fails with the unsupported-topology error iff
some unit other than the first — any position from 1 to the end, the last
included — declares a number of inputs different from one. -/
theorem c3_topology_check (fs : List (Option String × GraphFunction))
    (hlen : 2 ≤ fs.length)
    (harity : ∀ i, i + 1 < fs.length →
      (fs.getD i dPair).2.output_names.length =
        (fs.getD (i + 1) dPair).2.input_names.length) :
    (from_list fs).2 = .error .notImplemented ↔
      ∃ i, 1 ≤ i ∧ i < fs.length ∧
        (fs.getD i dPair).2.input_names.length ≠ 1 := by
  constructor
  · intro h
    have hc := from_list_notImpl fs h
    have hnone : ¬ checkChain fs = none := by rw [hc]; simp
    rw [checkChain_none_iff] at hnone
    push_neg at hnone
    obtain ⟨i, hi, hviol⟩ := hnone
    exact ⟨i + 1, by omega, hi, hviol (harity i hi)⟩
  · rintro ⟨i, h1, h2, h3⟩
    cases hcc : checkChain fs with
    | none =>
      rw [checkChain_none_iff] at hcc
      have hx := (hcc (i - 1) (by omega)).2
      rw [show i - 1 + 1 = i by omega] at hx
      exact absurd hx h3
    | some e =>
      have hshape := checkChain_some_shape fs e hcc
      have he : e = GBError.notImplemented := by
        rcases hshape with ⟨a, b, hab⟩ | h'
        · rw [hab] at hcc
          obtain ⟨j, hj, hne⟩ := checkChain_arity_of_mismatch fs a b hcc
          exact absurd (harity j hj) hne
        · exact h'
      cases fs with
      | nil => simp at hlen
      | cons f0 fs1 =>
        cases fs1 with
        | nil => simp at hlen
        | cons f1 rest =>
          rw [from_list_of_checkChain f0 f1 rest e hcc, he]

/-- C3 witness for the amended claim: a two-unit sequence with matching
arities whose second (last) unit declares two inputs. -/
theorem c3_topology_check_witness :
    (from_list [(some "s1", gC3a), (some "s2", gC3b)]).2 =
        .error .notImplemented ↔
      ∃ i, 1 ≤ i ∧
        i < ([(some "s1", gC3a), (some "s2", gC3b)] :
          List (Option String × GraphFunction)).length ∧
        ((([(some "s1", gC3a), (some "s2", gC3b)] :
          List (Option String × GraphFunction)).getD i dPair).2.input_names.length ≠ 1) :=
  c3_topology_check _ (by decide)
    (by
      intro i hi
      have hz : i = 0 := by simp at hi; omega
      subst hz
      decide)

/-- C4: every precondition violation of merge — empty sequence, adjacent
arity mismatch, or a multi-input intermediary unit — is reported as the
corresponding validation error with an empty event trace: no execution
context is opened and no import is attempted. -/
theorem c4_validation_before_context :
    from_list [] = ([], .error .assertEmptyFns) ∧
    ∀ fs : List (Option String × GraphFunction),
      ((∃ i, i + 1 < fs.length ∧
          (fs.getD i dPair).2.output_names.length ≠
            (fs.getD (i + 1) dPair).2.input_names.length) ∨
        (∃ i, 1 ≤ i ∧ i + 1 < fs.length ∧
          (fs.getD i dPair).2.input_names.length ≠ 1)) →
      ∃ e, ((∃ a b, e = GBError.arityMismatch a b) ∨ e = GBError.notImplemented) ∧
        from_list fs = ([], .error e) := by
  refine ⟨rfl, ?_⟩
  intro fs hviol
  have hlen : 2 ≤ fs.length := by
    rcases hviol with ⟨i, hi, -⟩ | ⟨i, -, hi, -⟩ <;> omega
  cases hcc : checkChain fs with
  | none =>
    exfalso
    rw [checkChain_none_iff] at hcc
    rcases hviol with ⟨i, hi, hne⟩ | ⟨i, h1, hi, hne⟩
    · exact hne (hcc i hi).1
    · have hx := (hcc (i - 1) (by omega)).2
      rw [show i - 1 + 1 = i by omega] at hx
      exact hne hx
  | some e =>
    cases fs with
    | nil => simp at hlen
    | cons f0 fs1 =>
      cases fs1 with
      | nil => simp at hlen
      | cons f1 rest =>
        exact ⟨e, checkChain_some_shape _ e hcc,
          from_list_of_checkChain f0 f1 rest e hcc⟩

/-- C4 witness: a two-unit sequence with an arity mismatch is rejected in
the precondition phase with an empty trace. -/
theorem c4_witness :
    ∃ e, ((∃ a b, e = GBError.arityMismatch a b) ∨ e = GBError.notImplemented) ∧
      from_list [(some "s1", gC4a), (some "s2", gC4b)] = ([], .error e) :=
  c4_validation_before_context.2 _ (Or.inl ⟨0, by decide, by decide⟩)

/-- C6: for every successful merge of two or more units, the merged Graph
Function's output names equal the last unit's original, undecorated output
names, whatever the scope labels and the number of stages. -/
theorem c6_output_names (fs : List (Option String × GraphFunction))
    (evs : List Event) (m : GraphFunction)
    (hlen : 2 ≤ fs.length)
    (h : from_list fs = (evs, .ok (.fn m))) :
    m.output_names = (fs.getLastD dPair).2.output_names := by
  cases fs with
  | nil => simp at hlen
  | cons f0 fs1 =>
    cases fs1 with
    | nil => simp at hlen
    | cons f1 rest =>
      simp only [from_list] at h
      split at h
      · rename_i e heq
        simp [Prod.ext_iff] at h
      · rename_i heq0
        split at h
        · rename_i e heq1
          simp [Prod.ext_iff] at h
        · rename_i gA feeds t heq1
          split at h
          · rename_i e heq2
            simp [Prod.ext_iff] at h
          · rename_i gB prev heq2
            split at h
            · rename_i e heq3
              simp [Prod.ext_iff] at h
            · rename_i gfn heq3
              have hm : gfn = m := by
                have h2 := congrArg Prod.snd h
                simp only at h2
                exact MergeResult.fn.inj (Except.ok.inj h2)
              have hout := asGraphFunction_ok_outputs _ _ _ gfn heq3
              obtain ⟨L, u, hconcat⟩ :=
                (List.eq_nil_or_concat (f0 :: f1 :: rest)).resolve_left (by simp)
              rw [List.concat_eq_append] at hconcat
              have hprev : prev.length = u.2.output_names.length := by
                apply mergeLoop_concat_length L u _ _ 0 gB prev
                rw [← hconcat]
                exact heq2
              have hlast : rest.getLastD f1 = u := by
                have h1 : (f0 :: f1 :: rest).getLastD dPair = rest.getLastD f1 := by
                  rw [List.getLastD_cons, List.getLastD_cons]
                rw [hconcat, List.getLastD_concat] at h1
                exact h1.symm
              have hle : ((rest.getLastD f1).2.output_names).length ≤ prev.length := by
                rw [hlast]
                exact hprev.ge
              rw [← hm, hout, makeIdentities_names, List.map_snd_zip _ _ hle, hlast,
                hconcat, List.getLastD_concat]

/-- First unit of the C6 witness: placeholder input x, output y1. -/
def gC6a : GraphFunction :=
  ⟨⟨[⟨"x", 0, [], true⟩, ⟨"y1", 0, [], false⟩]⟩, ["x"], ["y1"]⟩

/-- Second unit of the C6 witness: input y1, output y2. -/
def gC6b : GraphFunction :=
  ⟨⟨[⟨"y1", 0, [], true⟩, ⟨"y2", 0, [], false⟩]⟩, ["y1"], ["y2"]⟩

/-- Merge sequence of the C6 witness. -/
def fsC6 : List (Option String × GraphFunction) := [(some "a", gC6a), (some "b", gC6b)]

/-- Event trace produced by merging fsC6. -/
def evsC6 : List Event :=
  [.sessionOpened, .importCalled, .sessionOpened, .importCalled, .importCalled]

/-- Graph Function produced by merging fsC6. -/
def mC6 : GraphFunction :=
  ⟨⟨[⟨"x", 0, [], true⟩, ⟨"a/x", 0, [], true⟩, ⟨"a/y1", 0, [], false⟩,
    ⟨"b/y1", 0, [], true⟩, ⟨"b/y2", 0, [], false⟩, ⟨"y2", 0, [], false⟩]⟩,
   ["x"], ["y2"]⟩

/-- C6 witness: a concrete successful two-stage merge whose output names
equal the second unit's original names, with no scope prefix. -/
theorem c6_witness :
    2 ≤ fsC6.length ∧ mC6.output_names = (fsC6.getLastD dPair).2.output_names :=
  ⟨by decide, c6_output_names fsC6 evsC6 mC6 (by decide) (by decide)⟩

/-- Unit used by the C7 and C10 witnesses: one placeholder node x. -/
def gC7 : GraphFunction := ⟨⟨[⟨"x", 0, [], true⟩]⟩, ["x"], ["x"]⟩

/-- Tensor handle used by the C7 witness. -/
def tC7 : Tensor := ⟨"t", 0, [], true⟩

/-- C7: supplying an input-rewiring map with a key that is not a declared
input name makes import_graph_function fail with the input-map validation
error and an empty trace — before the graph import is attempted; when
every key is declared, the check passes and the import is performed. -/
theorem c7_input_map_validation :
    (∀ (g : Graph) (gfn : GraphFunction) (m : List (String × Tensor))
      (nm : Option String),
      (∃ kv ∈ m, kv.1 ∉ gfn.input_names) →
      import_graph_function g gfn (some m) nm = ([], .error .inputMapKey)) ∧
    (∀ (g : Graph) (gfn : GraphFunction) (m : List (String × Tensor))
      (nm : Option String),
      (∀ kv ∈ m, kv.1 ∈ gfn.input_names) →
      (import_graph_function g gfn (some m) nm).1 = [Event.importCalled]) := by
  constructor
  · intro g gfn m nm h
    have hc : ¬ (m.all (fun kv => gfn.input_names.contains kv.1) = true) := by
      rw [List.all_eq_true]
      push_neg
      obtain ⟨kv, hm, hn⟩ := h
      refine ⟨kv, hm, ?_⟩
      simpa [List.elem_iff] using hn
    rw [import_graph_function, if_neg hc]
  · intro g gfn m nm h
    have hc : m.all (fun kv => gfn.input_names.contains kv.1) = true := by
      rw [List.all_eq_true]
      intro kv hkv
      simpa [List.elem_iff] using h kv hkv
    rw [import_graph_function, if_pos hc]
    exact importGFRun_events g gfn nm

/-- C7 witness: a one-entry map with an undeclared key is rejected with an
empty trace; a declared key lets the import proceed. -/
theorem c7_witness :
    import_graph_function [] gC7 (some [("zz", tC7)]) (some "s") =
        ([], .error .inputMapKey) ∧
    (import_graph_function [] gC7 (some [("x", tC7)]) (some "s")).1 =
      [Event.importCalled] :=
  ⟨c7_input_map_validation.1 [] gC7 [("zz", tC7)] (some "s")
      ⟨("zz", tC7), by decide, by decide⟩,
   c7_input_map_validation.2 [] gC7 [("x", tC7)] (some "s") (by decide)⟩

/-- C10: an import whose scope name is absent, empty, or whitespace-only
behaves as an unscoped import — names are stripped first, no scope
qualifier is applied, and the returned feed and fetch handles are the
resolutions of the unit's original input and output names; a scope with
surrounding whitespace behaves as its stripped label. -/
theorem c10_blank_scope :
    (∀ (g : Graph) (gfn : GraphFunction) (nm : Option String),
      (nm = none ∨ ∃ s, nm = some s ∧ pyStrip s = "") →
      importGFRun g gfn nm = importGFRun g gfn none) ∧
    (∀ (g : Graph) (gfn : GraphFunction) (a b : String),
      pyStrip a = pyStrip b →
      importGFRun g gfn (some a) = importGFRun g gfn (some b)) ∧
    (∀ (g : Graph) (gfn : GraphFunction) (evs : List Event) (g2 : Graph)
      (feeds fetches : List Tensor),
      importGFRun g gfn none = (evs, .ok (g2, feeds, fetches)) →
      mapE (getTensor g2) gfn.input_names = .ok feeds ∧
      mapE (getTensor g2) gfn.output_names = .ok fetches) := by
  refine ⟨?_, ?_, ?_⟩
  · rintro g gfn nm (rfl | ⟨s, rfl, hs⟩)
    · rfl
    · simp [importGFRun, hs, decorateNames, importGraphDef]
  · intro g gfn a b hab
    simp [importGFRun, hab]
  · intro g gfn evs g2 feeds fetches h
    have h2 := congrArg Prod.snd h
    simp only [importGFRun, Option.map_none', decorateNames] at h2
    split at h2
    · exact absurd h2 (by simp)
    · rename_i feeds2 hfeeds
      split at h2
      · exact absurd h2 (by simp)
      · rename_i fetches2 hfetches
        have hinj := Except.ok.inj h2
        simp only [Prod.mk.injEq] at hinj
        obtain ⟨hG, hf, hh⟩ := hinj
        subst hG
        subst hf
        subst hh
        exact ⟨hfeeds, hfetches⟩

/-- C10 witness: blank and whitespace-padded scopes at concrete inputs,
and the unscoped resolution of the declared names. -/
theorem c10_witness :
    importGFRun [] gC7 (some " ") = importGFRun [] gC7 none ∧
    importGFRun [] gC7 (some " s ") = importGFRun [] gC7 (some "s") ∧
    (mapE (getTensor [⟨"x", 0, [], true⟩]) gC7.input_names =
        .ok [⟨"x", 0, [], true⟩] ∧
      mapE (getTensor [⟨"x", 0, [], true⟩]) gC7.output_names =
        .ok [⟨"x", 0, [], true⟩]) :=
  ⟨c10_blank_scope.1 [] gC7 (some " ") (Or.inr ⟨" ", rfl, by decide⟩),
   c10_blank_scope.2.1 [] gC7 " s " "s" (by decide),
   c10_blank_scope.2.2 [] gC7 [Event.importCalled] [⟨"x", 0, [], true⟩]
     [⟨"x", 0, [], true⟩] [⟨"x", 0, [], true⟩] (by decide)⟩

end Sparkdl
